import Mathlib

/-!
Verification of the Canvas PowerPoint downloader against its design
specification.  The Python sources (`download_canvas_ppts.py`, `app.py`,
`flatten.py`) are shallowly embedded below: pure helpers become Lean
functions on `String`/`List Char`, the paginated fetch loop becomes a
fuel-indexed recursion over an abstract HTTP environment, and the main
download traversal becomes a fold over module items threading an explicit
state (seen-set, count, request/download traces).  Definitions come first,
theorems follow.
-/

namespace Canvas

/-! ## Definitions -/

/-- Embeds Python `needle in hay` for strings, at the `List Char` level:
true iff `needle` occurs as a contiguous subsequence of `hay`. -/
def containsSeg (needle : List Char) : List Char → Bool
  | [] => needle.isEmpty
  | c :: rest => needle.isPrefixOf (c :: rest) || containsSeg needle rest

/-- Embeds Python `str.endswith` at the `List Char` level. -/
def endsWithSeg (suffix l : List Char) : Bool :=
  suffix.reverse.isPrefixOf l.reverse

/-- Embeds `is_powerpoint` (`download_canvas_ppts.py` lines 169-171,
`app.py` lines 130-132, `flatten.py` lines 15-17):
`filename.lower().endswith(('.ppt', '.pptx', '.pptm'))`. -/
def is_powerpoint (filename : String) : Bool :=
  let l := filename.data.map Char.toLower
  endsWithSeg ".ppt".data l || endsWithSeg ".pptx".data l
    || endsWithSeg ".pptm".data l

/-- Embeds a single-character Python `str.replace(char, '_')`: with a
one-character pattern, `str.replace` is a pointwise character map. -/
def replaceChar (c : Char) (l : List Char) : List Char :=
  l.map fun x => if x = c then '_' else x

/-- The characters of the Python literal `'<>:"/\\|?*'` (the string
`invalid_chars` in `sanitize_filename`). -/
def invalidChars : List Char := ['<', '>', ':', '"', '/', '\\', '|', '?', '*']

/-- Embeds `sanitize_filename` (`download_canvas_ppts.py` lines 174-179,
`app.py` lines 135-140): iteratively replaces each character of
`invalid_chars` by `'_'`. -/
def sanitize_filename (s : String) : String :=
  ⟨invalidChars.foldl (fun l c => replaceChar c l) s.data⟩

/-- Pointwise description of sanitization: each invalid character maps to
`'_'`, every other character is untouched. -/
def sanitizeSpecChar (x : Char) : Char :=
  if x ∈ invalidChars then '_' else x

/-- One event delivered by the HTML parser to the extractor.  Only
well-formed start tags reach `handle_starttag`; every other piece of
markup (text, end tags, comments, malformed fragments the parser
recovers from) is delivered as `other` and ignored, since the extractor
overrides only `handle_starttag`.  Attribute values are `Option String`
because valueless attributes arrive as `None`. -/
inductive HtmlEvent where
  | startTag (tag : String) (attrs : List (String × Option String))
  | other
deriving DecidableEq

/-- Embeds the href filter on `app.py` line 28 / `download_canvas_ppts.py`
line 28: `'/files/' in value or value.endswith(('.ppt', '.pptx', '.pptm'))`.
Note `str.endswith` compares case-sensitively. -/
def fileUrlFilter (v : String) : Bool :=
  containsSeg "/files/".data v.data
    || (endsWithSeg ".ppt".data v.data || endsWithSeg ".pptx".data v.data
          || endsWithSeg ".pptm".data v.data)

/-- Embeds `FileURLExtractor.handle_starttag` (`app.py` lines 24-29):
for an `a` tag, each `href` attribute whose value is truthy (present and
non-empty) and passes the filter is appended. -/
def handle_starttag (tag : String) (attrs : List (String × Option String)) :
    List String :=
  if tag = "a" then
    attrs.filterMap fun av =>
      match av.2 with
      | some v => if av.1 = "href" ∧ v ≠ "" ∧ fileUrlFilter v then some v else none
      | none => none
  else []

/-- Embeds feeding a parsed event stream through a fresh `FileURLExtractor`
and reading off `file_urls`: start-tag events are handled in order, all
other events contribute nothing. -/
def extractFileUrls (events : List HtmlEvent) : List String :=
  events.flatMap fun e =>
    match e with
    | .startTag t attrs => handle_starttag t attrs
    | .other => []

/-- The raw `href` targets of anchor start tags in an event stream, in
order, with no filtering beyond presence of the attribute value. -/
def anchorHrefs (events : List HtmlEvent) : List String :=
  events.flatMap fun e =>
    match e with
    | .startTag t attrs =>
        if t = "a" then
          attrs.filterMap fun av => if av.1 = "href" then av.2 else none
        else []
    | .other => []

/-- The candidate predicate exactly as the specification words it:
contains `/files/`, or ends in `.ppt`/`.pptx`/`.pptm` compared
case-insensitively. -/
def specCandidateCI (v : String) : Bool :=
  containsSeg "/files/".data v.data
    || (endsWithSeg ".ppt".data (v.data.map Char.toLower)
          || endsWithSeg ".pptx".data (v.data.map Char.toLower)
          || endsWithSeg ".pptm".data (v.data.map Char.toLower))

/-- The literal `/files/` searched for by the regex `/files/(\d+)`. -/
def filesLit : List Char := "/files/".data

/-- Tests whether a character list starts with a decimal digit. -/
def digitHead : List Char → Bool
  | [] => false
  | c :: _ => c.isDigit

/-- Embeds `re.search(r'/files/(\d+)', url)`: scan left to right for the
first position where `/files/` is followed by at least one digit, and
return the maximal digit run captured there. -/
def findFilesId : List Char → Option (List Char)
  | [] => none
  | c :: rest =>
      if filesLit.isPrefixOf (c :: rest) then
        let ds := ((c :: rest).drop 7).takeWhile Char.isDigit
        if ds.isEmpty then findFilesId rest else some ds
      else findFilesId rest

/-- Embeds `extract_file_id_from_url` (`download_canvas_ppts.py` lines
131-144; `app.py` lines 102-107 is the same function without the second,
unreachable pattern).  The second pattern re-runs the identical regex, so
it can never succeed when the first failed. -/
def extract_file_id_from_url (url : String) : Option String :=
  match findFilesId url.data with
  | some ds => some ⟨ds⟩
  | none =>
      if containsSeg "download_frd".data url.data
          || containsSeg "wrap".data url.data then
        (findFilesId url.data).map fun ds => ⟨ds⟩
      else none

/-- The regex `/files/(\d+)` matches the character list `l` at position
`i`: the literal appears at `i` and a digit follows it immediately. -/
def matchAt (l : List Char) (i : Nat) : Prop :=
  filesLit.isPrefixOf (l.drop i) = true ∧ digitHead (l.drop (i + 7)) = true

instance (l : List Char) (i : Nat) : Decidable (matchAt l i) :=
  inferInstanceAs (Decidable (_ ∧ _))

/-- Embeds Python's `<` on strings: strict lexicographic comparison of the
code-point sequences. -/
def listLtb : List Char → List Char → Bool
  | [], [] => false
  | [], _ :: _ => true
  | _ :: _, [] => false
  | a :: as, b :: bs => if a < b then true else if b < a then false else listLtb as bs

/-- Embeds the tuple key comparison Python's sort performs for
`key=lambda x: (x.parent.name, x.name)`: lexicographic order on the pair
(module name, file name), with `s ≤ t` meaning `not (t < s)`. -/
def pyLe (a b : String × String) : Prop :=
  listLtb a.1.data b.1.data = true
    ∨ (a.1 = b.1 ∧ listLtb b.2.data a.2.data = false)

instance : DecidableRel pyLe := fun a b => by
  unfold pyLe
  infer_instance

/-- The index of the last `'.'` in a character list, if any. -/
def lastDotIdx : List Char → Option Nat
  | [] => none
  | c :: rest =>
      match lastDotIdx rest with
      | some j => some (j + 1)
      | none => if c = '.' then some 0 else none

/-- Embeds `pathlib`'s `stem`/`suffix` split of a file name: the suffix
starts at the last dot provided that dot is neither the first nor the last
character; otherwise the suffix is empty and the stem is the whole name. -/
def splitStemSuffix (name : String) : String × String :=
  match lastDotIdx name.data with
  | some i =>
      if 0 < i ∧ i < name.data.length - 1 then
        (⟨name.data.take i⟩, ⟨name.data.drop i⟩)
      else (name, "")
  | none => (name, "")

/-- Embeds Python `f"{idx:02d}"`: the decimal representation left-padded
with zeros to width 2. -/
def pad2 (n : Nat) : String :=
  let s := toString n
  if s.length < 2 then "0" ++ s else s

/-- Embeds the destination name built on `flatten.py` line 101:
`f"{idx:02d} - {module_name} - {ppt_file.stem}{suffix}"`. -/
def numberedName (idx : Nat) (moduleName fileName : String) : String :=
  pad2 idx ++ " - " ++ moduleName ++ " - "
    ++ (splitStemSuffix fileName).1 ++ (splitStemSuffix fileName).2

/-- Embeds the `enumerate(all_files, 1)` loop of `flatten_by_number`:
number the files sequentially starting from `i`. -/
def numberFrom (i : Nat) : List (String × String) → List String
  | [] => []
  | mf :: rest => numberedName i mf.1 mf.2 :: numberFrom (i + 1) rest

/-- Embeds `flatten_by_number` (`flatten.py` lines 81-108) over the set of
(module folder name, file name) pairs found in the source tree: keep the
PowerPoint-named files, sort them by the (module name, file name) key as
Python's stable sort does, and produce the numbered destination names.
Since two entries comparing equal under the key are equal as pairs,
insertion sort produces the same list Python's stable sort does. -/
def flatten_by_number (files : List (String × String)) : List String :=
  numberFrom 1 (List.insertionSort pyLe (files.filter fun p => is_powerpoint p.2))

/-- One HTTP response as the pagination loop sees it: the status code,
the JSON records of the body, and the `response.links['next']['url']`
target when a next-page relation is present. -/
structure HttpResp (α : Type) where
  status : Nat
  records : List α
  nextUrl : Option String

/-- Embeds `requests.Response.raise_for_status`: an exception is raised
exactly for client errors (4xx) and server errors (5xx). -/
def raisesStatus (s : Nat) : Bool :=
  decide (400 ≤ s) && decide (s < 600)

/-- Embeds the shared `while url:` pagination loop of `get_modules`
(`download_canvas_ppts.py` lines 77-95, `app.py` lines 48-66) and
`get_module_items` (lines 98-116 / 69-87): request the current url with
the current params, abort by exception on a raising status, otherwise
extend the accumulator with the page's records and continue at the next
link with empty params.  The environment `env` maps (url, params) to the
response; `fuel` bounds the number of requests so the loop is total; the
request trace is accumulated alongside. -/
def fetch_paged {α : Type} (env : String → List (String × String) → HttpResp α) :
    Nat → String → List (String × String) → List α →
      List (String × List (String × String)) →
      Option (Except Nat (List α) × List (String × List (String × String)))
  | 0, _, _, _, _ => none
  | fuel + 1, url, params, acc, trace =>
      let r := env url params
      let trace' := trace ++ [(url, params)]
      if raisesStatus r.status then some (Except.error r.status, trace')
      else
        match r.nextUrl with
        | some u => fetch_paged env fuel u [] (acc ++ r.records) trace'
        | none => some (Except.ok (acc ++ r.records), trace')

/-- The whole paginated fetch as `get_modules`/`get_module_items` perform
it, starting from an empty accumulator. -/
def fetch_all {α : Type} (env : String → List (String × String) → HttpResp α)
    (fuel : Nat) (url : String) (params : List (String × String)) :
    Option (Except Nat (List α) × List (String × List (String × String))) :=
  fetch_paged env fuel url params [] []

/-- A successful chain of pages in the environment: starting at `url` with
`params`, every page has a non-raising status, the pages link via their
next urls (later requests carrying empty params), the chain is `n` pages
long and concatenates to `recs`. -/
inductive PageChain {α : Type} (env : String → List (String × String) → HttpResp α) :
    String → List (String × String) → List α → Nat → Prop
  | last {url : String} {params : List (String × String)} :
      raisesStatus (env url params).status = false →
      (env url params).nextUrl = none →
      PageChain env url params (env url params).records 1
  | step {url : String} {params : List (String × String)} {u : String}
      {recs : List α} {n : Nat} :
      raisesStatus (env url params).status = false →
      (env url params).nextUrl = some u →
      PageChain env u [] recs n →
      PageChain env url params ((env url params).records ++ recs) (n + 1)

/-- A chain of pages that reaches a raising status `s` after `n` requests:
the first `n - 1` pages succeed and link onward, the `n`-th raises. -/
inductive BadChain {α : Type} (env : String → List (String × String) → HttpResp α) :
    String → List (String × String) → Nat → Nat → Prop
  | here {url : String} {params : List (String × String)} :
      raisesStatus (env url params).status = true →
      BadChain env url params (env url params).status 1
  | there {url : String} {params : List (String × String)} {u : String}
      {s : Nat} {n : Nat} :
      raisesStatus (env url params).status = false →
      (env url params).nextUrl = some u →
      BadChain env u [] s n →
      BadChain env url params s (n + 1)

/-- A single-page environment answering status 304 (Not Modified): not a
2xx status, yet `raise_for_status` does not raise on it. -/
def env304 : String → List (String × String) → HttpResp Nat :=
  fun _ _ => ⟨304, [7], none⟩

/-- A two-page environment for exercising the pagination theorem. -/
def envTwoPages : String → List (String × String) → HttpResp Nat :=
  fun u _ => if u = "page1" then ⟨200, [1, 2], some "page2"⟩ else ⟨200, [3], none⟩

/-- A two-page environment whose second page answers 404. -/
def envBadPage : String → List (String × String) → HttpResp Nat :=
  fun u _ => if u = "page1" then ⟨200, [1], some "page2"⟩ else ⟨404, [], none⟩

/-- The JSON fields of a `/courses/{id}/files/{fileId}` metadata response
the program reads; each is `Option` because `dict.get` tolerates absence. -/
structure FileInfo where
  display_name : Option String
  filename : Option String
  url : Option String

/-- One module item as the traversal reads it: `item.get('type')`,
`item.get('title', 'unknown')` and `item.get('url')`. -/
structure Item where
  type : Option String
  title : Option String
  url : Option String

/-- One performed download: the `filename` variable at the download site,
the basename actually written (`sanitize_filename(filename)`), and the
signed download url retrieved. -/
structure DlRec where
  name : String
  path : String
  url : String
deriving DecidableEq

/-- The network environment of one run: `fileContent fu` is the `url`
field of the JSON at a File item's own url `fu`; `page pu` is the parsed
body of the page at `pu` (`none` models a failed fetch, which
`get_page_content` converts to the empty body, i.e. no events);
`fileInfo fid` is the metadata answered for file id `fid` (`none` models
a failed lookup, which `get_file_info` converts to `None`). -/
structure RunEnv where
  fileContent : String → Option String
  page : String → Option (List HtmlEvent)
  fileInfo : String → Option FileInfo

/-- The mutable state of the download loop in `main`
(`download_canvas_ppts.py` lines 232-305) / `download_powerpoints`
(`app.py` lines 143-234): the `downloaded_files` seen-set (as an
insertion-ordered list), the `total_ppts` counter, and traces of the
File-item content requests, the metadata requests, and the downloads
performed. -/
structure RunState where
  downloaded : List String
  count : Nat
  fcTrace : List String
  fiTrace : List String
  dlTrace : List DlRec
deriving DecidableEq

/-- The state at the start of a run: `downloaded_files = set()` and
`total_ppts = 0` are created fresh before the module loop. -/
def initState : RunState :=
  { downloaded := [], count := 0, fcTrace := [], fiTrace := [], dlTrace := [] }

/-- Embeds `file_info.get('display_name', file_info.get('filename',
'unknown'))`. -/
def infoName (info : FileInfo) : String :=
  (info.display_name <|> info.filename).getD "unknown"

/-- Embeds the download site shared by both branches: write the file under
`sanitize_filename(filename)`, add the url to the seen-set, bump the
counter. -/
def doDownload (st : RunState) (name dl : String) : RunState :=
  { downloaded := st.downloaded ++ [dl]
    count := st.count + 1
    fcTrace := st.fcTrace
    fiTrace := st.fiTrace
    dlTrace := st.dlTrace ++ [⟨name, sanitize_filename name, dl⟩] }

/-- Embeds the File-item branch (`download_canvas_ppts.py` lines 253-269,
`app.py` lines 175-191): the title is checked with `is_powerpoint` first;
only then is the item's own url requested, the signed url read, and the
download performed when the url is truthy and unseen. -/
def processFileItem (env : RunEnv) (st : RunState) (title : String)
    (urlOpt : Option String) : RunState :=
  if is_powerpoint title then
    match urlOpt with
    | some fileUrl =>
        if fileUrl = "" then st
        else
          let st1 := { st with fcTrace := st.fcTrace ++ [fileUrl] }
          match env.fileContent fileUrl with
          | some dl =>
              if dl ≠ "" ∧ dl ∉ st1.downloaded then doDownload st1 title dl
              else st1
          | none => st1
    | none => st
  else st

/-- Embeds the per-link body of the Page branch (`download_canvas_ppts.py`
lines 285-305, `app.py` lines 202-220): resolve the file id, request the
metadata, check the metadata-derived name with `is_powerpoint`, and
download when the signed url is truthy and unseen. -/
def processLink (env : RunEnv) (st : RunState) (link : String) : RunState :=
  match extract_file_id_from_url link with
  | some fid =>
      let st1 := { st with fiTrace := st.fiTrace ++ [fid] }
      match env.fileInfo fid with
      | some info =>
          let name := infoName info
          if is_powerpoint name then
            match info.url with
            | some dl =>
                if dl ≠ "" ∧ dl ∉ st1.downloaded then doDownload st1 name dl
                else st1
            | none => st1
          else st1
      | none => st1
  | none => st

/-- Embeds the Page-item branch (`download_canvas_ppts.py` lines 272-305,
`app.py` lines 194-220): fetch the body (a failed fetch yields the empty
body, hence no events), extract the candidate links, and process each in
order. -/
def processPageItem (env : RunEnv) (st : RunState) (urlOpt : Option String) :
    RunState :=
  match urlOpt with
  | some pageUrl =>
      if pageUrl = "" then st
      else
        let events :=
          match env.page pageUrl with
          | some evs => evs
          | none => []
        (extractFileUrls events).foldl (processLink env) st
  | none => st

/-- Embeds the per-item dispatch on `item.get('type')`. -/
def processItem (env : RunEnv) (st : RunState) (item : Item) : RunState :=
  let title := item.title.getD "unknown"
  match item.type with
  | some t =>
      if t = "File" then processFileItem env st title item.url
      else if t = "Page" then processPageItem env st item.url
      else st
  | none => st

/-- Embeds the inner `for item in items:` loop. -/
def processItems (env : RunEnv) (st : RunState) (items : List Item) : RunState :=
  items.foldl (processItem env) st

/-- Embeds the whole module loop of a run: the state starts fresh at
`initState` and every selected module's items are processed in order. -/
def runModules (env : RunEnv) (modules : List (List Item)) : RunState :=
  modules.foldl (processItems env) initState

/-- The run invariant: the seen-set is exactly the set of urls downloaded
so far (in order), those urls are pairwise distinct, the counter counts
the downloads, and every downloaded file had a PowerPoint-matching name. -/
def StInv (st : RunState) : Prop :=
  st.downloaded = st.dlTrace.map DlRec.url
    ∧ (st.dlTrace.map DlRec.url).Nodup
    ∧ st.count = st.dlTrace.length
    ∧ (st.dlTrace.all fun r => is_powerpoint r.name) = true

/-- An environment for the C8 counterexample: the File item's own url
would resolve, but the title check comes first. -/
def envC8 : RunEnv :=
  { fileContent := fun _ => some "dl1", page := fun _ => none,
    fileInfo := fun _ => none }

/-- A File-typed item whose title is not a PowerPoint name. -/
def itemC8 : Item :=
  { type := some "File", title := some "notes.pdf", url := some "fc1" }

/-- An environment in which every page-body fetch fails. -/
def envC7 : RunEnv :=
  { fileContent := fun _ => none, page := fun _ => none,
    fileInfo := fun _ => none }

/-- A Page-typed item pointing at a page url whose fetch will fail. -/
def itemC7 : Item :=
  { type := some "Page", title := some "Lecture", url := some "purl" }

/-- An environment whose File-content lookups answer a fixed signed url. -/
def envC9 : RunEnv :=
  { fileContent := fun _ => some "dlX", page := fun _ => none,
    fileInfo := fun _ => none }

/-- An environment whose metadata lookups answer a non-PowerPoint name. -/
def envC8b : RunEnv :=
  { fileContent := fun _ => none, page := fun _ => none,
    fileInfo := fun _ => some ⟨some "doc.pdf", none, some "dl9"⟩ }

/-! ## Theorems -/

/-! ### Sanitization (claims C4, C10) -/

theorem replaceChar_eq_map (c : Char) (l : List Char) :
    replaceChar c l = l.map fun x => if x = c then '_' else x := rfl

theorem sanitize_foldl_eq_map (cs : List Char) (hc : '_' ∉ cs) (l : List Char) :
    cs.foldl (fun l c => replaceChar c l) l
      = l.map fun x => if x ∈ cs then '_' else x := by
  induction cs generalizing l with
  | nil => simp
  | cons c cs ih =>
    have hu : '_' ∉ cs := fun h => hc (List.mem_cons_of_mem _ h)
    simp only [List.foldl_cons]
    rw [ih hu, replaceChar_eq_map, List.map_map]
    apply List.map_congr_left
    intro x _
    by_cases hxc : x = c
    · subst hxc
      simp [hu]
    · simp [hxc]

theorem sanitize_eq_map (s : String) :
    sanitize_filename s = ⟨s.data.map sanitizeSpecChar⟩ := by
  unfold sanitize_filename sanitizeSpecChar
  rw [sanitize_foldl_eq_map _ (by decide)]

/-- C4: for every input string, filename sanitization maps each occurrence of
each character of `< > : " / \ | ? *` to `'_'` and alters every other
character not at all (it is the pointwise map `sanitizeSpecChar`), and on
the concrete input `"Week 1: Intro/Outro.pptx"` it yields
`"Week 1_ Intro_Outro.pptx"`. -/
theorem sanitize_filename_spec :
    (∀ s : String, sanitize_filename s = ⟨s.data.map sanitizeSpecChar⟩)
    ∧ (∀ x : Char, x ∈ invalidChars → sanitizeSpecChar x = '_')
    ∧ (∀ x : Char, x ∉ invalidChars → sanitizeSpecChar x = x)
    ∧ sanitize_filename "Week 1: Intro/Outro.pptx" = "Week 1_ Intro_Outro.pptx" := by
  refine ⟨sanitize_eq_map, ?_, ?_, by decide⟩
  · intro x hx; simp [sanitizeSpecChar, hx]
  · intro x hx; simp [sanitizeSpecChar, hx]

/-- C4 witness: the quantified parts evaluated at concrete arguments. -/
theorem sanitize_filename_spec_witness :
    sanitize_filename "a:b" = ⟨("a:b").data.map sanitizeSpecChar⟩
    ∧ sanitizeSpecChar ':' = '_'
    ∧ sanitizeSpecChar 'a' = 'a' :=
  ⟨sanitize_filename_spec.1 "a:b",
   sanitize_filename_spec.2.1 ':' (by decide),
   sanitize_filename_spec.2.2.1 'a' (by decide)⟩

/-- C10: sanitization is idempotent and its output never contains an
invalid character. -/
theorem sanitize_filename_idempotent :
    (∀ s : String, sanitize_filename (sanitize_filename s) = sanitize_filename s)
    ∧ (∀ s : String, ∀ c ∈ (sanitize_filename s).data, c ∉ invalidChars) := by
  constructor
  · intro s
    rw [sanitize_eq_map, sanitize_eq_map, List.map_map]
    congr 1
    apply List.map_congr_left
    intro x _
    by_cases hx : x ∈ invalidChars <;> simp [sanitizeSpecChar, hx]
  · intro s c hc
    rw [sanitize_eq_map] at hc
    rcases List.mem_map.mp hc with ⟨x, _, hx⟩
    by_cases h : x ∈ invalidChars
    · simp [sanitizeSpecChar, h] at hx
      subst hx; decide
    · simp [sanitizeSpecChar, h] at hx
      subst hx; exact h

/-- C10 witness: idempotence at a concrete string, and the no-invalid
part at a concrete member of a concrete output. -/
theorem sanitize_filename_idempotent_witness :
    sanitize_filename (sanitize_filename "a:b") = sanitize_filename "a:b"
    ∧ '_' ∉ invalidChars :=
  ⟨sanitize_filename_idempotent.1 "a:b",
   sanitize_filename_idempotent.2 "a:b" '_' (by decide)⟩

/-! ### HTML link extraction (claim C2) -/

/-- C2 counterexample: on the single well-formed anchor
`<a href="talk.PPTX">`, the extractor returns nothing, although the
uppercase target satisfies the claim's case-insensitive candidate
predicate — so the extractor does not return every case-insensitive
match. -/
theorem extractFileUrls_not_case_insensitive :
    extractFileUrls [.startTag "a" [("href", some "talk.PPTX")]] = []
    ∧ specCandidateCI "talk.PPTX" = true
    ∧ ("talk.PPTX" : String) ≠ "" := by
  refine ⟨by decide, by decide, by decide⟩

theorem handle_starttag_filter (t : String) (attrs : List (String × Option String)) :
    handle_starttag t attrs
      = (if t = "a" then
            attrs.filterMap fun av => if av.1 = "href" then av.2 else none
          else []).filter fun v => v ≠ "" && fileUrlFilter v := by
  by_cases ht : t = "a"
  · simp only [handle_starttag, ht, if_pos]
    induction attrs with
    | nil => simp
    | cons av rest ih =>
      rcases av with ⟨a, v⟩
      match v with
      | none => simpa using ih
      | some v =>
        by_cases ha : a = "href"
        · by_cases hv : v ≠ "" ∧ fileUrlFilter v
          · simp [ha, hv, List.filterMap_cons, List.filter_cons, hv.1, hv.2, ih]
          · rw [Decidable.not_and_iff_or_not] at hv
            rcases hv with hv | hv
            · simp only [ne_eq, Decidable.not_not] at hv
              simp [ha, hv, List.filterMap_cons, List.filter_cons, ih]
            · simp only [Bool.not_eq_true] at hv
              by_cases hv0 : v = ""
              · simp [ha, hv0, List.filterMap_cons, List.filter_cons, ih]
              · simp [ha, hv, hv0, List.filterMap_cons, List.filter_cons, ih]
        · simp [ha, List.filterMap_cons, ih]
  · simp [handle_starttag, ht]

/-- C2 amended: for every stream of parsed HTML events, the extractor
returns exactly the `href` targets of well-formed anchor start tags whose
value is non-empty and contains `/files/` or ends case-SENSITIVELY in
`.ppt`/`.pptx`/`.pptm`, in order, and nothing else; all non-anchor and
non-start-tag markup contributes nothing. -/
theorem extractFileUrls_spec (events : List HtmlEvent) :
    extractFileUrls events
      = (anchorHrefs events).filter fun v => v ≠ "" && fileUrlFilter v := by
  induction events with
  | nil => rfl
  | cons e rest ih =>
    match e with
    | .other => simpa [extractFileUrls, anchorHrefs] using ih
    | .startTag t attrs =>
      simp only [extractFileUrls, anchorHrefs, List.flatMap_cons, List.filter_append]
      rw [handle_starttag_filter]
      exact congrArg _ ih

/-! ### File-id resolution (claim C3) -/

theorem matchAt_cons_succ (c : Char) (rest : List Char) (i : Nat) :
    matchAt (c :: rest) (i + 1) ↔ matchAt rest i := by
  unfold matchAt
  rw [List.drop_succ_cons, show i + 1 + 7 = (i + 7) + 1 from by omega,
    List.drop_succ_cons]

theorem forall_not_matchAt_cons {c : Char} {rest : List Char}
    (h0 : ¬ matchAt (c :: rest) 0) :
    (∀ i, ¬ matchAt rest i) ↔ ∀ i, ¬ matchAt (c :: rest) i := by
  constructor
  · intro h i
    cases i with
    | zero => exact h0
    | succ j => rw [matchAt_cons_succ]; exact h j
  · intro h i
    rw [← matchAt_cons_succ c]
    exact h (i + 1)

theorem takeWhile_digit_nil_iff (xs : List Char) :
    xs.takeWhile Char.isDigit = [] ↔ digitHead xs = false := by
  cases xs with
  | nil => simp [digitHead]
  | cons x t =>
    by_cases hx : x.isDigit = true
    · simp [List.takeWhile_cons, hx, digitHead]
    · simp only [Bool.not_eq_true] at hx
      simp [List.takeWhile_cons, hx, digitHead]

theorem findFilesId_cons (c : Char) (rest : List Char) :
    findFilesId (c :: rest)
      = if filesLit.isPrefixOf (c :: rest) then
          (if (((c :: rest).drop 7).takeWhile Char.isDigit).isEmpty then
              findFilesId rest
            else some (((c :: rest).drop 7).takeWhile Char.isDigit))
        else findFilesId rest := rfl

theorem findFilesId_cons_skip {c : Char} {rest : List Char}
    (h0 : ¬ matchAt (c :: rest) 0) :
    findFilesId (c :: rest) = findFilesId rest := by
  rw [findFilesId_cons]
  by_cases hp : filesLit.isPrefixOf (c :: rest) = true
  · have hd : digitHead ((c :: rest).drop 7) = false := by
      by_cases h : digitHead ((c :: rest).drop 7) = true
      · exact absurd ⟨by simpa using hp, by simpa using h⟩ h0
      · simpa using h
    have hds : ((c :: rest).drop 7).takeWhile Char.isDigit = [] :=
      (takeWhile_digit_nil_iff _).mpr hd
    rw [if_pos hp, if_pos]
    rw [List.isEmpty_iff]
    exact hds
  · rw [if_neg hp]

theorem findFilesId_cons_hit {c : Char} {rest : List Char}
    (h0 : matchAt (c :: rest) 0) :
    findFilesId (c :: rest) = some (((c :: rest).drop 7).takeWhile Char.isDigit) := by
  rcases h0 with ⟨hp, hd⟩
  have hd7 : digitHead ((c :: rest).drop 7) = true := by simpa using hd
  have hds : ((c :: rest).drop 7).takeWhile Char.isDigit ≠ [] := by
    rw [ne_eq, takeWhile_digit_nil_iff, hd7]
    decide
  rw [findFilesId_cons, if_pos (show filesLit.isPrefixOf (c :: rest) = true by
    simpa using hp), if_neg]
  rw [List.isEmpty_iff]
  exact hds

theorem findFilesId_none_iff (l : List Char) :
    findFilesId l = none ↔ ∀ i, ¬ matchAt l i := by
  induction l with
  | nil =>
    constructor
    · intro _ i hm
      rcases hm with ⟨hp, _⟩
      simp [filesLit, List.drop_nil] at hp
    · intro _
      rfl
  | cons c rest ih =>
    by_cases h0 : matchAt (c :: rest) 0
    · rw [findFilesId_cons_hit h0]
      constructor
      · intro h
        cases h
      · intro hall
        exact absurd h0 (hall 0)
    · rw [findFilesId_cons_skip h0, ih]
      exact forall_not_matchAt_cons h0

theorem findFilesId_some_iff (l : List Char) (ds : List Char) :
    findFilesId l = some ds ↔
      ∃ i, matchAt l i ∧ (∀ j, j < i → ¬ matchAt l j)
        ∧ ds = (l.drop (i + 7)).takeWhile Char.isDigit := by
  induction l generalizing ds with
  | nil =>
    constructor
    · intro h
      cases h
    · rintro ⟨i, ⟨hp, _⟩, _, _⟩
      simp [filesLit, List.drop_nil] at hp
  | cons c rest ih =>
    by_cases h0 : matchAt (c :: rest) 0
    · rw [findFilesId_cons_hit h0]
      constructor
      · intro h
        refine ⟨0, h0, by omega, ?_⟩
        simpa using (Option.some_injective _ h).symm
      · rintro ⟨i, hm, hmin, hds'⟩
        have hi : i = 0 := by
          by_contra hne
          exact hmin 0 (by omega) h0
        subst hi
        simpa using hds'.symm
    · rw [findFilesId_cons_skip h0, ih]
      constructor
      · rintro ⟨i, hm, hmin, hds'⟩
        refine ⟨i + 1, (matchAt_cons_succ c rest i).mpr hm, ?_, ?_⟩
        · intro j hj
          cases j with
          | zero => exact h0
          | succ k =>
            rw [matchAt_cons_succ]
            exact hmin k (by omega)
        · rw [show i + 1 + 7 = (i + 7) + 1 from by omega, List.drop_succ_cons]
          exact hds'
      · rintro ⟨i, hm, hmin, hds'⟩
        cases i with
        | zero => exact absurd hm h0
        | succ k =>
          refine ⟨k, (matchAt_cons_succ c rest k).mp hm, ?_, ?_⟩
          · intro j hj
            have := hmin (j + 1) (by omega)
            rw [matchAt_cons_succ] at this
            exact this
          · rw [show k + 1 + 7 = (k + 7) + 1 from by omega,
              List.drop_succ_cons] at hds'
            exact hds'

theorem extract_eq_findFilesId (url : String) :
    extract_file_id_from_url url = (findFilesId url.data).map fun ds => ⟨ds⟩ := by
  unfold extract_file_id_from_url
  cases h : findFilesId url.data with
  | some ds => rfl
  | none =>
    by_cases hc : containsSeg "download_frd".data url.data
        || containsSeg "wrap".data url.data
    · simp [hc, h]
    · simp [hc, h]

/-- C3: for every candidate link, the resolver returns the first (leftmost)
maximal run of digits immediately following the literal `/files/`, and
`none` exactly when no occurrence of `/files/` is immediately followed by a
digit; on the two concrete inputs of the specification it returns `"4821"`
and `none` respectively. -/
theorem extract_file_id_from_url_spec :
    (∀ url ds : String,
        extract_file_id_from_url url = some ds ↔
          ∃ i, matchAt url.data i ∧ (∀ j, j < i → ¬ matchAt url.data j)
            ∧ ds.data = (url.data.drop (i + 7)).takeWhile Char.isDigit)
    ∧ (∀ url : String,
        extract_file_id_from_url url = none ↔ ∀ i, ¬ matchAt url.data i)
    ∧ extract_file_id_from_url "/courses/9/files/4821/download?x=1" = some "4821"
    ∧ extract_file_id_from_url "/courses/9/pages/intro" = none := by
  refine ⟨?_, ?_, by decide, by decide⟩
  · intro url ds
    rw [extract_eq_findFilesId]
    constructor
    · intro h
      rcases Option.map_eq_some'.mp h with ⟨l, hl, hmk⟩
      have : ds.data = l := by
        rw [← hmk]
      rw [this]
      exact (findFilesId_some_iff url.data l).mp hl
    · intro h
      have := (findFilesId_some_iff url.data ds.data).mpr h
      rw [this]
      rfl
  · intro url
    rw [extract_eq_findFilesId]
    rw [Option.map_eq_none']
    exact findFilesId_none_iff url.data

/-- C3 witness: both characterizations instantiated on concrete links,
with the first match position and minimality discharged by computation. -/
theorem extract_file_id_from_url_spec_witness :
    extract_file_id_from_url "/a/files/12x/files/9" = some "12"
    ∧ extract_file_id_from_url "/a/files/x" = none := by
  constructor
  · apply (extract_file_id_from_url_spec.1 "/a/files/12x/files/9" "12").mpr
    refine ⟨2, by decide, ?_, by decide⟩
    intro j hj
    interval_cases j <;> decide
  · apply (extract_file_id_from_url_spec.2.1 "/a/files/x").mpr
    intro i
    by_cases hi : i < 20
    · interval_cases i <;> decide
    · intro hm
      rcases hm with ⟨hp, _⟩
      have hlen : ("/a/files/x".data.drop i).length = 0 := by
        rw [List.length_drop]
        have : "/a/files/x".data.length = 10 := by decide
        omega
      rw [List.length_eq_zero] at hlen
      rw [hlen] at hp
      simp [filesLit] at hp

/-! ### Numbered flattening (claim C6) -/

theorem listLtb_irrefl : ∀ x : List Char, listLtb x x = false
  | [] => rfl
  | a :: as => by
    simp only [listLtb, lt_irrefl a, if_false]
    exact listLtb_irrefl as

theorem listLtb_trans :
    ∀ x y z : List Char, listLtb x y = true → listLtb y z = true →
      listLtb x z = true
  | [], [], _, h1, _ => by cases h1
  | [], _ :: _, [], _, h2 => by cases h2
  | [], _ :: _, _ :: _, _, _ => rfl
  | _ :: _, [], _, h1, _ => by cases h1
  | _ :: _, _ :: _, [], _, h2 => by cases h2
  | a :: as, b :: bs, c :: cs, h1, h2 => by
    simp only [listLtb] at h1 h2 ⊢
    by_cases hab : a < b
    · by_cases hbc : b < c
      · rw [if_pos (lt_trans hab hbc)]
      · rw [if_neg hbc] at h2
        by_cases hcb : c < b
        · rw [if_pos hcb] at h2
          cases h2
        · have hbc' : b = c := le_antisymm (not_lt.mp hcb) (not_lt.mp hbc)
          subst hbc'
          rw [if_pos hab]
    · rw [if_neg hab] at h1
      by_cases hba : b < a
      · rw [if_pos hba] at h1
        cases h1
      · rw [if_neg hba] at h1
        have hab' : a = b := le_antisymm (not_lt.mp hba) (not_lt.mp hab)
        subst hab'
        by_cases hac : a < c
        · rw [if_pos hac]
        · rw [if_neg hac] at h2 ⊢
          by_cases hca : c < a
          · rw [if_pos hca] at h2
            cases h2
          · rw [if_neg hca] at h2 ⊢
            exact listLtb_trans as bs cs h1 h2

theorem listLtb_eq_of_not :
    ∀ x y : List Char, listLtb x y = false → listLtb y x = false → x = y
  | [], [], _, _ => rfl
  | [], _ :: _, h1, _ => by cases h1
  | _ :: _, [], _, h2 => by cases h2
  | a :: as, b :: bs, h1, h2 => by
    simp only [listLtb] at h1 h2
    by_cases hab : a < b
    · simp [hab] at h1
    · by_cases hba : b < a
      · simp [hab, hba] at h2
      · have hab' : a = b := le_antisymm (not_lt.mp hba) (not_lt.mp hab)
        subst hab'
        simp only [lt_irrefl a, if_false] at h1 h2
        rw [listLtb_eq_of_not as bs h1 h2]

theorem listLtb_asymm {x y : List Char} (h : listLtb x y = true) :
    listLtb y x = false := by
  by_cases h2 : listLtb y x = true
  · have := listLtb_trans x y x h h2
    rw [listLtb_irrefl] at this
    cases this
  · simpa using h2

theorem string_data_inj {a b : String} (h : a.data = b.data) : a = b := by
  cases a with
  | mk d1 =>
    cases b with
    | mk d2 =>
      have h' : d1 = d2 := h
      rw [h']

instance : IsTotal (String × String) pyLe := by
  constructor
  intro a b
  by_cases h1 : listLtb a.1.data b.1.data = true
  · exact Or.inl (Or.inl h1)
  · by_cases h2 : listLtb b.1.data a.1.data = true
    · exact Or.inr (Or.inl h2)
    · have he : a.1 = b.1 :=
        string_data_inj (listLtb_eq_of_not _ _ (by simpa using h1) (by simpa using h2))
      by_cases h3 : listLtb b.2.data a.2.data = true
      · exact Or.inr (Or.inr ⟨he.symm, listLtb_asymm h3⟩)
      · exact Or.inl (Or.inr ⟨he, by simpa using h3⟩)

instance : IsTrans (String × String) pyLe := by
  constructor
  intro a b c hab hbc
  rcases hab with h1 | ⟨h1, h1'⟩
  · rcases hbc with h2 | ⟨h2, _⟩
    · exact Or.inl (listLtb_trans _ _ _ h1 h2)
    · exact Or.inl (h2 ▸ h1)
  · rcases hbc with h2 | ⟨h2, h2'⟩
    · exact Or.inl (h1 ▸ h2)
    · refine Or.inr ⟨h1.trans h2, ?_⟩
      by_cases hca : listLtb c.2.data a.2.data = true
      · by_cases hba : listLtb b.2.data a.2.data = true
        · rw [hba] at h1'
          cases h1'
        · by_cases hcb : listLtb c.2.data b.2.data = true
          · rw [hcb] at h2'
            cases h2'
          · have : c.2.data = b.2.data :=
              listLtb_eq_of_not _ _ (by simpa using hcb)
                (by
                  by_cases hbc2 : listLtb b.2.data c.2.data = true
                  · have := listLtb_trans _ _ _ hbc2 hca
                    rw [this] at h1'
                    cases h1'
                  · simpa using hbc2)
            rw [this] at hca
            rw [hca] at h1'
            cases h1'
      · simpa using hca

theorem string_append_empty (s : String) : s ++ "" = s := by
  cases s with
  | mk d =>
    show String.mk (d ++ []) = String.mk d
    rw [List.append_nil]

theorem stem_append_suffix (name : String) :
    (splitStemSuffix name).1 ++ (splitStemSuffix name).2 = name := by
  rcases h : lastDotIdx name.data with _ | i
  · simp only [splitStemSuffix, h]
    exact string_append_empty name
  · by_cases hc : 0 < i ∧ i < name.data.length - 1
    · simp only [splitStemSuffix, h, if_pos hc]
      cases name with
      | mk d =>
        show String.mk (d.take i ++ d.drop i) = String.mk d
        rw [List.take_append_drop]
    · simp only [splitStemSuffix, h, if_neg hc]
      exact string_append_empty name

theorem numberedName_eq (idx : Nat) (m f : String) :
    numberedName idx m f = pad2 idx ++ " - " ++ m ++ " - " ++ f := by
  unfold numberedName
  rw [String.append_assoc, stem_append_suffix]

theorem numberFrom_getElem (i : Nat) (l : List (String × String)) (k : Nat) :
    (numberFrom i l)[k]?
      = (l[k]?).map fun p => pad2 (i + k) ++ " - " ++ p.1 ++ " - " ++ p.2 := by
  induction l generalizing i k with
  | nil => simp [numberFrom]
  | cons mf rest ih =>
    cases k with
    | zero =>
      simp [numberFrom, numberedName_eq]
    | succ k =>
      simp only [numberFrom, List.getElem?_cons_succ]
      rw [ih (i + 1) k]
      rw [show i + 1 + k = i + (k + 1) from by omega]

/-- C6: the numbered collision policy filters to PowerPoint-named files,
sorts them by the (module name, file name) key, and assigns the
strictly increasing zero-padded sequence numbers `i + k` to positions `k`,
producing names of the form `"NN - <ModuleName> - <stem><ext>"`; on the
specification's concrete three-file set it yields exactly
`01 - ModA - a.pptx`, `02 - ModA - b.pptx`, `03 - ModB - c.pptx`. -/
theorem flatten_by_number_spec :
    (∀ files : List (String × String),
        ∃ sortedFiles : List (String × String),
          sortedFiles.Perm (files.filter fun p => is_powerpoint p.2)
          ∧ List.Sorted pyLe sortedFiles
          ∧ flatten_by_number files = numberFrom 1 sortedFiles)
    ∧ (∀ (i : Nat) (l : List (String × String)) (k : Nat),
        (numberFrom i l)[k]?
          = (l[k]?).map fun p => pad2 (i + k) ++ " - " ++ p.1 ++ " - " ++ p.2)
    ∧ flatten_by_number [("ModA", "b.pptx"), ("ModA", "a.pptx"), ("ModB", "c.pptx")]
        = ["01 - ModA - a.pptx", "02 - ModA - b.pptx", "03 - ModB - c.pptx"] := by
  refine ⟨?_, numberFrom_getElem, by rfl⟩
  intro files
  exact ⟨List.insertionSort pyLe (files.filter fun p => is_powerpoint p.2),
    List.perm_insertionSort pyLe _, List.sorted_insertionSort pyLe _, rfl⟩

/-! ### Pagination (claim C5) -/

theorem fetch_paged_succ {α : Type} (env : String → List (String × String) → HttpResp α)
    (fuel : Nat) (url : String) (params : List (String × String))
    (acc : List α) (trace : List (String × List (String × String))) :
    fetch_paged env (fuel + 1) url params acc trace
      = if raisesStatus (env url params).status then
          some (Except.error (env url params).status, trace ++ [(url, params)])
        else
          match (env url params).nextUrl with
          | some u =>
              fetch_paged env fuel u [] (acc ++ (env url params).records)
                (trace ++ [(url, params)])
          | none =>
              some (Except.ok (acc ++ (env url params).records),
                trace ++ [(url, params)]) := rfl

theorem fetch_paged_ok {α : Type}
    {env : String → List (String × String) → HttpResp α} {url : String}
    {params : List (String × String)} {recs : List α} {n : Nat}
    (h : PageChain env url params recs n) :
    ∀ fuel, n ≤ fuel → ∀ acc trace,
      ∃ reqs, fetch_paged env fuel url params acc trace
          = some (Except.ok (acc ++ recs), trace ++ reqs)
        ∧ reqs.head? = some (url, params)
        ∧ ∀ r ∈ reqs.tail, r.2 = ([] : List (String × String)) := by
  induction h with
  | @last url params hstat hnext =>
    intro fuel hf acc trace
    obtain ⟨f, rfl⟩ : ∃ f, fuel = f + 1 := ⟨fuel - 1, by omega⟩
    refine ⟨[(url, params)], ?_, rfl, ?_⟩
    · rw [fetch_paged_succ, hstat, hnext]
      rfl
    · intro r hr
      cases hr
  | @step url params u recs n hstat hnext _ ih =>
    intro fuel hf acc trace
    obtain ⟨f, rfl⟩ : ∃ f, fuel = f + 1 := ⟨fuel - 1, by omega⟩
    obtain ⟨reqs', hfetch, hhead, htail⟩ :=
      ih f (by omega) (acc ++ (env url params).records) (trace ++ [(url, params)])
    refine ⟨(url, params) :: reqs', ?_, rfl, ?_⟩
    · rw [fetch_paged_succ, hstat, hnext]
      show fetch_paged env f u [] (acc ++ (env url params).records)
          (trace ++ [(url, params)]) = _
      rw [hfetch, List.append_assoc, List.append_assoc]
      rfl
    · intro r hr
      have hr' : r ∈ reqs' := hr
      rcases reqs' with _ | ⟨r0, rt⟩
      · cases hr'
      · have hr0 : r0 = (u, ([] : List (String × String))) := by
          injection hhead
        rcases List.mem_cons.mp hr' with h | h
        · rw [h, hr0]
        · exact htail r h

theorem fetch_paged_err {α : Type}
    {env : String → List (String × String) → HttpResp α} {url : String}
    {params : List (String × String)} {s : Nat} {n : Nat}
    (h : BadChain env url params s n) :
    ∀ fuel, n ≤ fuel → ∀ acc trace,
      ∃ reqs, fetch_paged env fuel url params acc trace
          = some (Except.error s, trace ++ reqs) := by
  induction h with
  | @here url params hstat =>
    intro fuel hf acc trace
    obtain ⟨f, rfl⟩ : ∃ f, fuel = f + 1 := ⟨fuel - 1, by omega⟩
    refine ⟨[(url, params)], ?_⟩
    rw [fetch_paged_succ, hstat]
    rfl
  | @there url params u s n hstat hnext _ ih =>
    intro fuel hf acc trace
    obtain ⟨f, rfl⟩ : ∃ f, fuel = f + 1 := ⟨fuel - 1, by omega⟩
    obtain ⟨reqs', hfetch⟩ :=
      ih f (by omega) (acc ++ (env url params).records) (trace ++ [(url, params)])
    refine ⟨(url, params) :: reqs', ?_⟩
    rw [fetch_paged_succ, hstat, hnext]
    show fetch_paged env f u [] (acc ++ (env url params).records)
        (trace ++ [(url, params)]) = _
    rw [hfetch, List.append_assoc]
    rfl

/-- C5 counterexample: the fetch loop does not abort on every non-2xx
response.  A single page answering 304 (Not Modified) is not a 2xx
status, yet `raise_for_status` raises only on 4xx/5xx, so the loop
accepts the page and returns its records instead of aborting. -/
theorem fetch_all_not_abort_non2xx :
    fetch_all env304 1 "u" [("per_page", "100")]
        = some (Except.ok [7], [("u", [("per_page", "100")])])
    ∧ raisesStatus 304 = false
    ∧ ¬ (200 ≤ 304 ∧ 304 < 300) :=
  ⟨rfl, rfl, by omega⟩

/-- C5 (amended): for every paginated fetch over a chain of pages, the
fetcher follows the next links in order while each page's status is
non-raising (i.e. not 4xx/5xx), returns exactly the page-order
concatenation of the records, sends the query parameters only on the
first request (all later requests carry empty params); and as soon as any
page answers a 4xx/5xx status the whole fetch aborts with that status,
discarding all records accumulated so far — no partial result is
returned. -/
theorem fetch_all_spec :
    (∀ (α : Type) (env : String → List (String × String) → HttpResp α)
        (url : String) (params : List (String × String)) (recs : List α)
        (n fuel : Nat), PageChain env url params recs n → n ≤ fuel →
        ∃ reqs, fetch_all env fuel url params = some (Except.ok recs, reqs)
          ∧ reqs.head? = some (url, params)
          ∧ ∀ r ∈ reqs.tail, r.2 = ([] : List (String × String)))
    ∧ (∀ (α : Type) (env : String → List (String × String) → HttpResp α)
        (url : String) (params : List (String × String)) (s : Nat)
        (n fuel : Nat), BadChain env url params s n → n ≤ fuel →
        ∃ reqs, fetch_all env fuel url params = some (Except.error s, reqs)) := by
  constructor
  · intro α env url params recs n fuel h hf
    obtain ⟨reqs, hfetch, hh, ht⟩ := fetch_paged_ok h fuel hf [] []
    exact ⟨reqs, hfetch, hh, ht⟩
  · intro α env url params s n fuel h hf
    obtain ⟨reqs, hfetch⟩ := fetch_paged_err h fuel hf [] []
    exact ⟨reqs, hfetch⟩

/-- C5 witness: the success half on a concrete two-page chain (300-record
pages abbreviated to short lists) and the abort half on a chain whose
second page answers 404. -/
theorem fetch_all_spec_witness :
    (∃ reqs, fetch_all envTwoPages 2 "page1" [("per_page", "100")]
        = some (Except.ok [1, 2, 3], reqs)
        ∧ reqs.head? = some ("page1", [("per_page", "100")])
        ∧ ∀ r ∈ reqs.tail, r.2 = ([] : List (String × String)))
    ∧ (∃ reqs, fetch_all envBadPage 2 "page1" [("per_page", "100")]
        = some (Except.error 404, reqs)) := by
  constructor
  · apply fetch_all_spec.1 Nat envTwoPages "page1" [("per_page", "100")] [1, 2, 3] 2 2
      ?_ (by omega)
    exact PageChain.step rfl rfl (PageChain.last rfl rfl)
  · apply fetch_all_spec.2 Nat envBadPage "page1" [("per_page", "100")] 404 2 2
      ?_ (by omega)
    exact BadChain.there rfl rfl (BadChain.here rfl)

/-! ### The download traversal (claims C1, C7, C8, C9) -/

theorem stInv_init : StInv initState :=
  ⟨rfl, List.nodup_nil, rfl, rfl⟩

theorem stInv_doDownload {st : RunState} (h : StInv st) {name dl : String}
    (hname : is_powerpoint name = true) (hdl : dl ∉ st.downloaded) :
    StInv (doDownload st name dl) := by
  obtain ⟨h1, h2, h3, h4⟩ := h
  refine ⟨?_, ?_, ?_, ?_⟩
  · show st.downloaded ++ [dl]
      = (st.dlTrace ++ [DlRec.mk name (sanitize_filename name) dl]).map DlRec.url
    rw [List.map_append, h1]
    rfl
  · show ((st.dlTrace ++ [DlRec.mk name (sanitize_filename name) dl]).map
        DlRec.url).Nodup
    rw [List.map_append]
    refine List.Nodup.append h2 (List.nodup_singleton dl) ?_
    show (List.map DlRec.url st.dlTrace).Disjoint [dl]
    rw [List.disjoint_singleton]
    rw [h1] at hdl
    exact hdl
  · show st.count + 1
      = (st.dlTrace ++ [DlRec.mk name (sanitize_filename name) dl]).length
    rw [List.length_append, h3]
    rfl
  · show ((st.dlTrace ++ [DlRec.mk name (sanitize_filename name) dl]).all
        fun r => is_powerpoint r.name) = true
    rw [List.all_append, h4]
    simpa using hname

theorem stInv_processFileItem (env : RunEnv) (st : RunState) (title : String)
    (u : Option String) (h : StInv st) : StInv (processFileItem env st title u) := by
  unfold processFileItem
  by_cases hppt : is_powerpoint title = true
  · rw [if_pos hppt]
    rcases u with _ | fu
    · exact h
    · dsimp only
      by_cases hfu : fu = ""
      · rw [if_pos hfu]
        exact h
      · rw [if_neg hfu]
        have hst1 : StInv { st with fcTrace := st.fcTrace ++ [fu] } := h
        cases henv : env.fileContent fu with
        | none => exact hst1
        | some dl =>
          dsimp only
          by_cases hdl : dl ≠ ""
              ∧ dl ∉ ({ st with fcTrace := st.fcTrace ++ [fu] } : RunState).downloaded
          · rw [if_pos hdl]
            exact stInv_doDownload hst1 hppt hdl.2
          · rw [if_neg hdl]
            exact hst1
  · rw [if_neg hppt]
    exact h

theorem stInv_processLink (env : RunEnv) (st : RunState) (link : String)
    (h : StInv st) : StInv (processLink env st link) := by
  unfold processLink
  cases h1 : extract_file_id_from_url link with
  | none => exact h
  | some fid =>
    dsimp only
    have hst1 : StInv { st with fiTrace := st.fiTrace ++ [fid] } := h
    cases h2 : env.fileInfo fid with
    | none => exact hst1
    | some info =>
      dsimp only
      by_cases h3 : is_powerpoint (infoName info) = true
      · rw [if_pos h3]
        cases hurl : info.url with
        | none => exact hst1
        | some dl =>
          dsimp only
          by_cases h4 : dl ≠ ""
              ∧ dl ∉ ({ st with fiTrace := st.fiTrace ++ [fid] } : RunState).downloaded
          · rw [if_pos h4]
            exact stInv_doDownload hst1 h3 h4.2
          · rw [if_neg h4]
            exact hst1
      · rw [if_neg h3]
        exact hst1

theorem stInv_foldl_processLink (env : RunEnv) (links : List String) :
    ∀ st, StInv st → StInv (links.foldl (processLink env) st) := by
  induction links with
  | nil => intro st h; exact h
  | cons l ls ih =>
    intro st h
    show StInv (ls.foldl (processLink env) (processLink env st l))
    exact ih _ (stInv_processLink env st l h)

theorem stInv_processPageItem (env : RunEnv) (st : RunState) (u : Option String)
    (h : StInv st) : StInv (processPageItem env st u) := by
  unfold processPageItem
  rcases u with _ | pu
  · exact h
  · dsimp only
    by_cases hpu : pu = ""
    · rw [if_pos hpu]
      exact h
    · rw [if_neg hpu]
      exact stInv_foldl_processLink env _ st h

theorem stInv_processItem (env : RunEnv) (st : RunState) (item : Item)
    (h : StInv st) : StInv (processItem env st item) := by
  unfold processItem
  cases htype : item.type with
  | none => exact h
  | some t =>
    dsimp only
    by_cases ht : t = "File"
    · rw [if_pos ht]
      exact stInv_processFileItem env st _ item.url h
    · rw [if_neg ht]
      by_cases ht2 : t = "Page"
      · rw [if_pos ht2]
        exact stInv_processPageItem env st item.url h
      · rw [if_neg ht2]
        exact h

theorem stInv_processItems (env : RunEnv) (items : List Item) :
    ∀ st, StInv st → StInv (processItems env st items) := by
  induction items with
  | nil => intro st h; exact h
  | cons it its ih =>
    intro st h
    show StInv (processItems env (processItem env st it) its)
    exact ih _ (stInv_processItem env st it h)

theorem stInv_runModules (env : RunEnv) (modules : List (List Item)) :
    StInv (runModules env modules) := by
  have main : ∀ (ms : List (List Item)) (st : RunState), StInv st →
      StInv (ms.foldl (processItems env) st) := by
    intro ms
    induction ms with
    | nil => intro st h; exact h
    | cons m ms ih =>
      intro st h
      show StInv (ms.foldl (processItems env) (processItems env st m))
      exact ih _ (stInv_processItems env m st h)
  exact main modules initState stInv_init

/-- C1: in every run, each download url in the download trace occurs at
most once (the trace of retrieved urls is duplicate-free), the final
counter equals the number of downloads performed, which is therefore the
number of distinct urls retrieved, the seen-set is exactly the set of
urls retrieved, and the seen-set and counter start empty and zero — the
state is created fresh for each run (`runModules` always starts from
`initState`). -/
theorem dedup_at_most_once :
    (∀ (env : RunEnv) (modules : List (List Item)),
        ((runModules env modules).dlTrace.map DlRec.url).Nodup
        ∧ (∀ u : String, ((runModules env modules).dlTrace.map DlRec.url).count u ≤ 1)
        ∧ (runModules env modules).count = (runModules env modules).dlTrace.length
        ∧ (runModules env modules).downloaded
            = (runModules env modules).dlTrace.map DlRec.url)
    ∧ initState.downloaded = [] ∧ initState.count = 0
    ∧ ∀ env : RunEnv, runModules env [] = initState := by
  refine ⟨?_, rfl, rfl, fun _ => rfl⟩
  intro env modules
  obtain ⟨h1, h2, h3, _⟩ := stInv_runModules env modules
  exact ⟨h2, fun u => List.nodup_iff_count_le_one.mp h2 u, h3, h1⟩

/-- Two File items in different modules resolving to the same signed url
("dlX" for every lookup in `envC9`) are retrieved exactly once: the final
count is 1, the number of distinct urls retrieved, not the number of
references. -/
theorem dedup_two_references_example :
    (runModules envC9
        [[{ type := some "File", title := some "a.pptx", url := some "f1" }],
         [{ type := some "File", title := some "b.pptx", url := some "f2" }]]).count = 1
    ∧ (runModules envC9
        [[{ type := some "File", title := some "a.pptx", url := some "f1" }],
         [{ type := some "File", title := some "b.pptx", url := some "f2" }]]).downloaded
        = ["dlX"] := by
  refine ⟨by decide, by decide⟩

/-- C7: a Page item whose body fetch fails contributes nothing: the body
is treated as empty, the empty body yields zero candidate links, the
item leaves the state untouched, and traversal of the remaining items
proceeds exactly as if the failed item were absent. -/
theorem page_fetch_failure_non_fatal :
    (∀ (env : RunEnv) (st : RunState) (item : Item) (rest : List Item) (u : String),
        item.type = some "Page" → item.url = some u → u ≠ "" →
        env.page u = none →
        processItem env st item = st
        ∧ processItems env st (item :: rest) = processItems env st rest)
    ∧ extractFileUrls [] = ([] : List String) := by
  refine ⟨?_, rfl⟩
  intro env st item rest u htype hurl hne hpage
  have h1 : processItem env st item = st := by
    unfold processItem
    rw [htype]
    dsimp only
    rw [if_neg (by decide : ¬ ("Page" : String) = "File"), if_pos rfl]
    unfold processPageItem
    rw [hurl]
    dsimp only
    rw [if_neg hne, hpage]
    rfl
  refine ⟨h1, ?_⟩
  show processItems env (processItem env st item) rest = processItems env st rest
  rw [h1]

/-- C7 witness: a concrete failing page fetch leaves a concrete state
unchanged and the item drops out of a concrete traversal. -/
theorem page_fetch_failure_non_fatal_witness :
    processItem envC7 initState itemC7 = initState
    ∧ processItems envC7 initState [itemC7] = processItems envC7 initState [] := by
  have h := page_fetch_failure_non_fatal.1 envC7 initState itemC7 [] "purl"
    rfl rfl (by decide) rfl
  exact ⟨h.1, h.2⟩

theorem processFileItem_not_ppt (env : RunEnv) (st : RunState) (title : String)
    (u : Option String) (h : is_powerpoint title = false) :
    processFileItem env st title u = st := by
  unfold processFileItem
  rw [h]
  rfl

theorem processItem_file_not_ppt (env : RunEnv) (st : RunState) (item : Item)
    (htype : item.type = some "File")
    (h : is_powerpoint (item.title.getD "unknown") = false) :
    processItem env st item = st := by
  unfold processItem
  rw [htype]
  dsimp only
  rw [if_pos rfl]
  exact processFileItem_not_ppt env st _ item.url h

theorem processLink_not_ppt (env : RunEnv) (st : RunState) (link fid : String)
    (info : FileInfo) (h1 : extract_file_id_from_url link = some fid)
    (h2 : env.fileInfo fid = some info)
    (h3 : is_powerpoint (infoName info) = false) :
    processLink env st link = { st with fiTrace := st.fiTrace ++ [fid] } := by
  unfold processLink
  rw [h1]
  dsimp only
  rw [h2]
  dsimp only
  rw [h3]
  rfl

theorem processFileItem_download (env : RunEnv) (st : RunState)
    (title fu dl : String) (hppt : is_powerpoint title = true) (hfu : fu ≠ "")
    (henv : env.fileContent fu = some dl) (hdl : dl ≠ "")
    (hseen : dl ∉ st.downloaded) :
    processFileItem env st title (some fu)
      = doDownload { st with fcTrace := st.fcTrace ++ [fu] } title dl := by
  unfold processFileItem
  rw [if_pos hppt]
  dsimp only
  rw [if_neg hfu, henv]
  dsimp only
  rw [if_pos ⟨hdl, hseen⟩]

/-- C9: for every File-typed module item the PowerPoint check runs on the
item's title before any request: a non-matching title leaves the state
completely unchanged (no file-content request, no metadata lookup, no
download), while a matching title downloads under the sanitized item
title — the name written is `sanitize_filename title`, not any
metadata-derived name. -/
theorem file_item_title_filter :
    (∀ (env : RunEnv) (st : RunState) (title : String) (u : Option String),
        is_powerpoint title = false → processFileItem env st title u = st)
    ∧ (∀ (env : RunEnv) (st : RunState) (item : Item),
        item.type = some "File" →
        is_powerpoint (item.title.getD "unknown") = false →
        processItem env st item = st)
    ∧ (∀ (env : RunEnv) (st : RunState) (title fu dl : String),
        is_powerpoint title = true → fu ≠ "" → env.fileContent fu = some dl →
        dl ≠ "" → dl ∉ st.downloaded →
        processFileItem env st title (some fu)
          = doDownload { st with fcTrace := st.fcTrace ++ [fu] } title dl)
    ∧ (∀ (st : RunState) (name dl : String),
        (doDownload st name dl).dlTrace
          = st.dlTrace ++ [⟨name, sanitize_filename name, dl⟩]) :=
  ⟨processFileItem_not_ppt, processItem_file_not_ppt,
   processFileItem_download, fun _ _ _ => rfl⟩

/-- C9 witness: the non-matching title leaves the initial state unchanged,
and a matching title downloads under the sanitized title, at concrete
inputs. -/
theorem file_item_title_filter_witness :
    processFileItem envC9 initState "a.pdf" (some "fu") = initState
    ∧ processItem envC9 initState
        { type := some "File", title := some "a.pdf", url := some "fu" } = initState
    ∧ processFileItem envC9 initState "a.pptx" (some "fu")
        = doDownload { initState with fcTrace := initState.fcTrace ++ ["fu"] }
            "a.pptx" "dlX"
    ∧ (doDownload initState "n" "d").dlTrace
        = initState.dlTrace ++ [⟨"n", sanitize_filename "n", "d"⟩] :=
  ⟨file_item_title_filter.1 envC9 initState "a.pdf" (some "fu") (by decide),
   file_item_title_filter.2.1 envC9 initState _ rfl (by decide),
   file_item_title_filter.2.2.1 envC9 initState "a.pptx" "fu" "dlX"
     (by decide) (by decide) rfl (by decide) (by decide),
   file_item_title_filter.2.2.2 initState "n" "d"⟩

/-- C8 counterexample: a File-typed reference whose title does not match
the presentation extensions triggers no metadata resolution at all — the
whole run leaves the state at `initState`, so in particular the
file-content request trace is empty, contradicting the claim that the
metadata of every non-matching reference is still resolved. -/
theorem metadata_not_resolved_for_nonmatching_title :
    is_powerpoint "notes.pdf" = false
    ∧ runModules envC8 [[itemC8]] = initState
    ∧ envC8.fileContent "fc1" = some "dl1" := by
  refine ⟨by decide, by decide, rfl⟩

/-- C8 (amended): only files whose checked name matches the presentation
extensions are ever downloaded — every entry of the download trace has a
PowerPoint-matching name; for page-embedded references the metadata is
resolved and a non-matching metadata name yields exactly the metadata
request and nothing else; File-typed items are filtered on their title
before any request, so a non-matching File item resolves no metadata at
all. -/
theorem extension_filter_spec :
    (∀ (env : RunEnv) (modules : List (List Item)),
        ((runModules env modules).dlTrace.all fun r => is_powerpoint r.name) = true)
    ∧ (∀ (env : RunEnv) (st : RunState) (link fid : String) (info : FileInfo),
        extract_file_id_from_url link = some fid →
        env.fileInfo fid = some info →
        is_powerpoint (infoName info) = false →
        processLink env st link = { st with fiTrace := st.fiTrace ++ [fid] })
    ∧ (∀ (env : RunEnv) (st : RunState) (title : String) (u : Option String),
        is_powerpoint title = false → processFileItem env st title u = st) := by
  refine ⟨?_, processLink_not_ppt, processFileItem_not_ppt⟩
  intro env modules
  exact (stInv_runModules env modules).2.2.2

/-- C8 witness: the three parts at concrete inputs — a concrete run's
download trace is all-PowerPoint, a concrete non-matching page link adds
only its metadata request, and a concrete non-matching File title is a
no-op. -/
theorem extension_filter_spec_witness :
    ((runModules envC8 [[itemC8]]).dlTrace.all fun r => is_powerpoint r.name) = true
    ∧ processLink envC8b initState "/files/5"
        = { initState with fiTrace := initState.fiTrace ++ ["5"] }
    ∧ processFileItem envC8b initState "x.txt" none = initState :=
  ⟨extension_filter_spec.1 envC8 [[itemC8]],
   extension_filter_spec.2.1 envC8b initState "/files/5" "5"
     ⟨some "doc.pdf", none, some "dl9"⟩ (by decide) rfl (by decide),
   extension_filter_spec.2.2 envC8b initState "x.txt" none (by decide)⟩

end Canvas
